import Mathlib

/-!
Verification of the backlog-readonly-mcp server core against its
natural-language specification.

The development shallowly embeds the TypeScript sources:
* `src/config/config-manager.ts`  (workspace file parsing, layered
  configuration resolution, memoization),
* `src/client/backlog-api-client.ts`  (GET-only client, retry/backoff,
  rate-limit handling, error conversion),
* `src/tools/tool-registry.ts`  (read-only tool registration and the
  call-time write-parameter check).

JavaScript strings are modelled as `List Char` so that every operation is
structurally recursive and kernel-evaluable; `string | undefined` values
are `Option (List Char)` with JavaScript truthiness (the empty string and
`undefined` are falsy).  `parseInt` results are `Option Int`, `none`
standing for `NaN`.
-/

/-- JavaScript strings, modelled as character lists. -/
abbrev Str := List Char

/-- Characters removed by JavaScript `String.prototype.trim`. -/
def isJsWhitespace (c : Char) : Bool :=
  c = ' ' || c = '\t' || c = '\n' || c = '\r' || c = '\x0b' || c = '\x0c'

/-- `String.prototype.trim`: strip whitespace from both ends. -/
def trimStr (s : Str) : Str :=
  ((s.dropWhile isJsWhitespace).reverse.dropWhile isJsWhitespace).reverse

/-- `String.prototype.split(sep)` for a single-character separator.
`''.split(sep)` is `['']`, matching JavaScript. -/
def splitOnChar (sep : Char) : Str → List Str
  | [] => [[]]
  | c :: rest =>
    match splitOnChar sep rest with
    | [] => [[]]
    | h :: t => if c = sep then [] :: h :: t else (c :: h) :: t

/-- `Array.prototype.join(sep)` for a single-character separator. -/
def joinSep (sep : Char) : List Str → Str
  | [] => []
  | [x] => x
  | x :: y :: t => x ++ sep :: joinSep sep (y :: t)

/-- JavaScript truthiness of a `string | undefined` value:
`undefined` and the empty string are falsy. -/
def truthy : Option Str → Bool
  | none => false
  | some s => !s.isEmpty

/-- JavaScript `a || b` on `string | undefined` values. -/
def jsOr (a b : Option Str) : Option Str :=
  if truthy a then a else b

/-- JavaScript `a || b` where the fallback is a string literal. -/
def jsOrStr (a : Option Str) (b : Str) : Str :=
  match jsOr a (some b) with
  | some s => s
  | none => b

/-- Value of a digit character. -/
def digitVal (c : Char) : Nat := c.toNat - 48

/-- Accumulate a decimal digit string into a number. -/
def digitsToNat (ds : Str) : Nat :=
  ds.foldl (fun a c => a * 10 + digitVal c) 0

/-- JavaScript `parseInt(s, 10)`: skip leading whitespace, read an
optional sign and then the longest prefix of decimal digits; `NaN`
(modelled as `none`) when no digit is found. -/
def jsParseInt (s : Str) : Option Int :=
  let t := s.dropWhile isJsWhitespace
  let signAndRest : Int × Str :=
    match t with
    | '-' :: r => (-1, r)
    | '+' :: r => (1, r)
    | _ => (1, t)
  let digits := signAndRest.2.takeWhile Char.isDigit
  if digits.isEmpty then none
  else some (signAndRest.1 * (digitsToNat digits : Int))

/-- The quote-stripping step of the workspace file parser,
`value.replace(/^["']|["']$/g, '')`: remove one leading and one trailing
quote character (double or single), each independently. -/
def stripQuotes (s : Str) : Str :=
  let s1 :=
    match s with
    | '"' :: r => r
    | '\x27' :: r => r
    | _ => s
  match s1.reverse with
  | '"' :: r => r.reverse
  | '\x27' :: r => r.reverse
  | _ => s1

/-- One line of the workspace configuration file, as processed by
`ConfigManager.loadConfig`: trim, skip blank lines and `#` comments,
split on `=`, require a truthy key and at least one `=`; the value is
the remaining parts re-joined with `=`, trimmed and quote-stripped. -/
def parseLine (line : Str) : Option (Str × Str) :=
  let trimmedLine := trimStr line
  if trimmedLine.isEmpty then none
  else if trimmedLine.head? = some '#' then none
  else
    match splitOnChar '=' trimmedLine with
    | [] => none
    | key :: valueParts =>
      if key.isEmpty then none
      else if valueParts.isEmpty then none
      else
        some (trimStr key, stripQuotes (trimStr (joinSep '=' valueParts)))

/-- The workspace-file parsing loop of `ConfigManager.loadConfig`:
split the content on newlines and collect the entries of the lines that
produce one, in order. -/
def parseWorkspaceConfig (content : Str) : List (Str × Str) :=
  (splitOnChar '\n' content).filterMap parseLine

/-- Record semantics of `workspaceConfig[key] = value`: the last
assignment to a key wins. -/
def lookupLast (entries : List (Str × Str)) (key : Str) : Option Str :=
  entries.foldl (fun acc p => if p.1 = key then some p.2 else acc) none

/-- The system environment variables read by `ConfigManager.loadConfig`. -/
structure EnvVars where
  domain : Option Str
  apiKey : Option Str
  defaultProject : Option Str
  maxRetries : Option Str
  timeout : Option Str
deriving DecidableEq, Repr

/-- The resolved `BacklogConfig` (`maxRetries` and `timeout` are the
`parseInt` results; `none` is `NaN`). -/
structure BacklogConfig where
  domain : Str
  apiKey : Str
  defaultProject : Option Str
  maxRetries : Option Int
  timeout : Option Int
deriving DecidableEq, Repr

/-- The inputs `loadConfig` reads from the outside world: the
environment and the content of the workspace file (`none` when the file
does not exist or cannot be read). -/
structure World where
  env : EnvVars
  file : Option Str
deriving DecidableEq, Repr

/-- The workspace-file value of a key in a given world. -/
def wsVal (w : World) (key : Str) : Option Str :=
  match w.file with
  | none => none
  | some content => lookupLast (parseWorkspaceConfig content) key

/-- The resolution core of `ConfigManager.loadConfig` (lines 82-110):
each setting is `workspaceConfig.X || systemEnv.X`, retries and timeout
get literal defaults, and the call throws when domain or API key is
missing. -/
def resolveConfig (w : World) : Except Str BacklogConfig :=
  let domain := jsOr (wsVal w ("BACKLOG_DOMAIN").toList) w.env.domain
  let apiKey := jsOr (wsVal w ("BACKLOG_API_KEY").toList) w.env.apiKey
  let defaultProject :=
    jsOr (wsVal w ("BACKLOG_DEFAULT_PROJECT").toList) w.env.defaultProject
  let maxRetries :=
    jsOrStr (jsOr (wsVal w ("BACKLOG_MAX_RETRIES").toList) w.env.maxRetries)
      ("3").toList
  let timeout :=
    jsOrStr (jsOr (wsVal w ("BACKLOG_TIMEOUT").toList) w.env.timeout)
      ("30000").toList
  if truthy domain = false || truthy apiKey = false then
    .error ("BACKLOG_DOMAIN と BACKLOG_API_KEY が設定されていません。環境変数または .backlog-mcp.env ファイルで設定してください。").toList
  else
    .ok
      { domain := (jsOrStr domain [])
        apiKey := (jsOrStr apiKey [])
        defaultProject := defaultProject
        maxRetries := jsParseInt maxRetries
        timeout := jsParseInt timeout }

/-- The mutable state of the `ConfigManager` singleton. -/
structure ManagerState where
  cached : Option BacklogConfig
deriving DecidableEq, Repr

/-- `ConfigManager.loadConfig`: return the cached configuration when
present; otherwise resolve from the world, caching only on success. -/
def loadConfig (st : ManagerState) (w : World) :
    Except Str BacklogConfig × ManagerState :=
  match st.cached with
  | some c => (.ok c, st)
  | none =>
    match resolveConfig w with
    | .error e => (.error e, st)
    | .ok c => (.ok c, ⟨some c⟩)

/-- `ConfigManager.getConfig`: `loadConfig` when nothing is cached,
else the cached configuration. -/
def getConfig (st : ManagerState) (w : World) :
    Except Str BacklogConfig × ManagerState :=
  match st.cached with
  | some c => (.ok c, st)
  | none => loadConfig st w

/-- `ConfigManager.reset`: clear the cache. -/
def resetManager (_st : ManagerState) : ManagerState := ⟨none⟩

/-! ### The Backlog API client (`backlog-api-client.ts`) -/

/-- The part of an axios error response that the client inspects. -/
structure RespInfo where
  status : Nat
  retryAfterHeader : Option Str
  firstErrorMessage : Option Str
deriving DecidableEq, Repr

/-- The fields of an `AxiosError` the client reads: the optional
response, whether a request object is attached, the error code, whether
the original request config is available, and the error message. -/
structure AxiosErrInfo where
  response : Option RespInfo
  hasRequest : Bool
  code : Option Str
  hasConfig : Bool
  message : Str
deriving DecidableEq, Repr

/-- A value caught by the client: an axios error, some other JavaScript
`Error`, or a thrown non-`Error` value. -/
inductive ClientError where
  | axios (e : AxiosErrInfo)
  | jsError (message : Str)
  | nonError
deriving DecidableEq, Repr

/-- The error classes of `types/index.ts` that the client produces. -/
inductive MCPError where
  | readOnlyViolation (message : Str)
  | authentication (message : Str)
  | network (message : Str)
  | generic (message : Str)
deriving DecidableEq, Repr

/-- Error codes `shouldRetry` treats as permanent network failures. -/
def permanentErrorCodes : List Str :=
  [("ENOTFOUND").toList, ("ECONNREFUSED").toList, ("EHOSTUNREACH").toList,
   ("ENOENT").toList, ("EACCES").toList, ("EPERM").toList]

/-- `BacklogApiClient.shouldRetry`: retry on status 429 or 5xx, and on
network errors without a response (unless the error code is a truthy
permanent code); everything else, including non-axios errors, is not
retried. -/
def shouldRetry : ClientError → Bool
  | .axios e =>
    match e.response with
    | some r => decide (r.status = 429) || decide (500 ≤ r.status)
    | none =>
      if e.hasRequest then
        match e.code with
        | some c =>
          if c.isEmpty = false && decide (c ∈ permanentErrorCodes) then false
          else true
        | none => true
      else false
  | .jsError _ => false
  | .nonError => false

/-- The HTTP response status carried by an error, when there is one. -/
def statusOf : ClientError → Option Nat
  | .axios e => e.response.map (fun r => r.status)
  | _ => none

/-- `BacklogApiClient.calculateBackoffDelay`: exponential backoff in
milliseconds, capped at 30 seconds. -/
def calculateBackoffDelay (attempt : Nat) : Nat :=
  min (2 ^ (attempt - 1) * 1000) 30000

/-- `createUserFriendlyMessage`: map a status code to a message. -/
def createUserFriendlyMessage (status : Nat) (originalMessage : Str) : Str :=
  if status = 400 then ("リクエストが無効です: ").toList ++ originalMessage
  else if status = 401 then
    ("APIキーが無効です。BACKLOG_API_KEYの設定を確認してください。").toList
  else if status = 403 then
    ("このリソースにアクセスする権限がありません。プロジェクトのメンバーであることを確認してください。").toList
  else if status = 404 then
    ("指定されたリソースが見つかりません: ").toList ++ originalMessage
  else if status = 429 then
    ("APIの利用制限に達しました。しばらく時間をおいて再試行してください。").toList
  else if status = 500 then
    ("Backlogサーバーで内部エラーが発生しました。しばらく時間をおいて再試行してください。").toList
  else if status = 502 || status = 503 || status = 504 then
    ("Backlogサーバーが一時的に利用できません。しばらく時間をおいて再試行してください。").toList
  else originalMessage

/-- `BacklogApiClient.convertToBacklogError`: turn a caught error into
one of the user-facing error classes. -/
def convertToBacklogError : ClientError → MCPError
  | .axios e =>
    match e.response with
    | some r =>
      let errorMessage :=
        createUserFriendlyMessage r.status (jsOrStr r.firstErrorMessage e.message)
      if r.status = 401 || r.status = 403 then .authentication errorMessage
      else .generic errorMessage
    | none =>
      if e.hasRequest then
        .network ("ネットワークに接続できません。インターネット接続を確認してください。").toList
      else if e.code = some ("ENOTFOUND").toList then
        .network ("Backlogドメインが見つかりません。BACKLOG_DOMAINの設定を確認してください。").toList
      else if e.code = some ("ECONNABORTED").toList then
        .network ("リクエストがタイムアウトしました。しばらく時間をおいて再試行してください。").toList
      else .generic e.message
  | .jsError message => .generic message
  | .nonError =>
    .generic ("予期しないエラーが発生しました。しばらく時間をおいて再試行してください。").toList

/-- The retry loop of `BacklogApiClient.executeWithRetry`, with the
attempt counter made explicit.  `res n` is the outcome of the `n`-th
invocation of the request function.  The fuel argument only bounds the
recursion; `executeWithRetry` supplies enough for the `attempt <=
maxRetries` guard to be the real exit condition.  Returns the number of
invocations performed together with the final outcome. -/
def ewrAux (maxRetries : Nat) (res : Nat → Except ClientError α) :
    Nat → Nat → Nat × Except MCPError α
  | _attempt, 0 => (0, .error (.generic []))
  | attempt, fuel + 1 =>
    match res attempt with
    | .ok v => (attempt, .ok v)
    | .error e =>
      if attempt ≤ maxRetries ∧ shouldRetry e = true then
        ewrAux maxRetries res (attempt + 1) fuel
      else (attempt, .error (convertToBacklogError e))

/-- `BacklogApiClient.executeWithRetry`. -/
def executeWithRetry (maxRetries : Nat) (res : Nat → Except ClientError α) :
    Nat × Except MCPError α :=
  ewrAux maxRetries res 1 (maxRetries + 1)

/-- `setTimeout` coerces its delay to a number of milliseconds:
`NaN` becomes 0, negative delays are clamped to 0. -/
def jsSetTimeoutMs : Option Int → Nat
  | none => 0
  | some v => v.toNat

/-- The wait computed by `handleError` + `handleRateLimit` for a 429
response: `parseInt(headers['retry-after'] || '60', 10)` seconds,
capped via `Math.min(retryAfter * 1000, 60000)`; `NaN` propagates. -/
def rateLimitWaitMsRaw (header : Option Str) : Option Int :=
  (jsParseInt (jsOrStr header ("60").toList)).map fun n => min (n * 1000) 60000

/-- The wait actually slept by `handleRateLimit` (via `delay`). -/
def handleRateLimitWait (header : Option Str) : Nat :=
  jsSetTimeoutMs (rateLimitWaitMsRaw header)

/-- What the response interceptor decides to do with an error. -/
inductive HandleAction where
  | resend
  | rethrow
deriving DecidableEq, Repr

/-- Observable outcome of `handleError`: how long it waited and whether
it re-sent the original request or re-threw the error. -/
structure HandleOutcome where
  waitedMs : Nat
  action : HandleAction
deriving DecidableEq, Repr

/-- `BacklogApiClient.handleError`: on a 429 response wait the
rate-limit delay and re-send the request when its config is available
(re-throwing otherwise); every other error is re-thrown immediately. -/
def handleError (e : AxiosErrInfo) : HandleOutcome :=
  match e.response with
  | some r =>
    if r.status = 429 then
      let w := handleRateLimitWait r.retryAfterHeader
      if e.hasConfig then ⟨w, .resend⟩ else ⟨w, .rethrow⟩
    else ⟨0, .rethrow⟩
  | none => ⟨0, .rethrow⟩

/-- An HTTP request issued by the client. -/
structure HttpRequest where
  method : Str
  endpoint : Str
deriving DecidableEq, Repr

/-- `BacklogApiClient.get`: runs the request function under
`executeWithRetry`; every attempt issues one GET request to the
endpoint. -/
def clientGet (endpoint : Str) (maxRetries : Nat)
    (res : Nat → Except ClientError α) :
    List HttpRequest × Except MCPError α :=
  let out := executeWithRetry maxRetries res
  ((List.range out.1).map fun _ => ⟨("GET").toList, endpoint⟩, out.2)

/-- `BacklogApiClient.post`: issues no request and unconditionally
throws a `ReadOnlyViolationError`. -/
def clientPost : List HttpRequest × Except MCPError Unit :=
  ([], .error (.readOnlyViolation
    ("このMCPサーバーは読み取り専用です。POSTリクエストは許可されていません。").toList))

/-- `BacklogApiClient.put`: issues no request and unconditionally
throws a `ReadOnlyViolationError`. -/
def clientPut : List HttpRequest × Except MCPError Unit :=
  ([], .error (.readOnlyViolation
    ("このMCPサーバーは読み取り専用です。PUTリクエストは許可されていません。").toList))

/-- `BacklogApiClient.delete`: issues no request and unconditionally
throws a `ReadOnlyViolationError`. -/
def clientDelete : List HttpRequest × Except MCPError Unit :=
  ([], .error (.readOnlyViolation
    ("このMCPサーバーは読み取り専用です。DELETEリクエストは許可されていません。").toList))

/-! ### The tool registry (`tool-registry.ts`) -/

/-- Lowercase a string, as JavaScript `toLowerCase` does on ASCII
letters (other characters, including the Japanese keywords, are
unchanged). -/
def toLowerStr (s : Str) : Str := s.map Char.toLower

/-- Substring test, JavaScript `String.prototype.includes`. -/
def jsIncludes (s sub : Str) : Bool :=
  match s with
  | [] => sub.isEmpty
  | _ :: rest => sub.isPrefixOf s || jsIncludes rest sub

/-- The name patterns `/^create/i`, ... that `validateReadOnlyTool`
rejects. -/
def writeOperationPatterns : List Str :=
  [("create").toList, ("add").toList, ("update").toList, ("edit").toList,
   ("modify").toList, ("delete").toList, ("remove").toList, ("post").toList,
   ("put").toList, ("patch").toList, ("upload").toList, ("insert").toList,
   ("save").toList, ("write").toList]

/-- `WRITE_OPERATION_PATTERNS.some((p) => p.test(tool.name))`: the name
starts, case-insensitively, with one of the patterns. -/
def nameIsWriteOperation (name : Str) : Bool :=
  writeOperationPatterns.any fun p => p.isPrefixOf (toLowerStr name)

/-- The description keywords checked by `validateReadOnlyTool`. -/
def writeKeywords : List Str :=
  [("作成").toList, ("追加").toList, ("更新").toList, ("編集").toList,
   ("変更").toList, ("削除").toList,
   ("create").toList, ("add").toList, ("update").toList, ("edit").toList,
   ("modify").toList, ("delete").toList, ("remove").toList, ("post").toList,
   ("put").toList, ("patch").toList]

/-- The read-only marker `読み取り専用`. -/
def roMarker : Str := ("読み取り専用").toList

/-- Case-insensitive write-keyword test on a description. -/
def descHasWriteKeyword (description : Str) : Bool :=
  writeKeywords.any fun k => jsIncludes (toLowerStr description) (toLowerStr k)

/-- A registered MCP tool, as far as the registry inspects it. -/
structure MCPTool where
  name : Str
  description : Option Str
deriving DecidableEq, Repr

/-- `ToolRegistry.validateReadOnlyTool`: reject write-operation names,
then reject descriptions that carry a write keyword without the
read-only marker. -/
def validateReadOnlyTool (tool : MCPTool) : Except MCPError Unit :=
  if nameIsWriteOperation tool.name then
    .error (.readOnlyViolation
      (("読み取り専用制限違反: ツール \x22").toList ++ tool.name ++
       ("\x22 は書き込み操作を示すため登録できません。このMCPサーバーは読み取り専用です。").toList))
  else
    if descHasWriteKeyword ((tool.description).getD []) &&
        !jsIncludes ((tool.description).getD []) roMarker then
      .error (.readOnlyViolation
        (("読み取り専用制限違反: ツール \x22").toList ++ tool.name ++
         ("\x22 の説明に書き込み操作を示すキーワードが含まれていますが、読み取り専用の明記がありません。").toList))
    else .ok ()

/-- `ToolRegistry.enhanceToolDescription`: append `（読み取り専用）`
when the description does not already mention the marker. -/
def enhanceToolDescription (tool : MCPTool) : MCPTool :=
  if jsIncludes ((tool.description).getD []) roMarker then tool
  else { tool with
    description := some (((tool.description).getD []) ++ ("（読み取り専用）").toList) }

/-- Tool-call arguments: a record of named values (values are opaque
strings in this model). -/
abbrev ToolArgs := List (Str × Str)

/-- A tool handler. -/
abbrev ToolHandler := ToolArgs → Except MCPError Str

/-- The argument names `wrapHandlerWithReadOnlyCheck` rejects. -/
def writeParamNames : List Str :=
  [("create").toList, ("add").toList, ("update").toList, ("edit").toList,
   ("modify").toList, ("delete").toList, ("remove").toList, ("post").toList,
   ("put").toList, ("patch").toList]

/-- The call-time check: some argument key, lower-cased, is equal to a
write parameter name or starts with it followed by an underscore. -/
def hasWriteParam (args : ToolArgs) : Bool :=
  args.any fun kv =>
    writeParamNames.any fun w =>
      decide (toLowerStr kv.1 = w) ||
        (w ++ ['_']).isPrefixOf (toLowerStr kv.1)

/-- The error message thrown by the wrapped handler. -/
def wrapViolationMessage (toolName : Str) : Str :=
  ("読み取り専用制限違反: ツール \x22").toList ++ toolName ++
    ("\x22 で書き込み操作を示すパラメータが検出されました。このMCPサーバーは読み取り専用です。").toList

/-- `ToolRegistry.wrapHandlerWithReadOnlyCheck`. -/
def wrapHandler (toolName : Str) (handler : ToolHandler) : ToolHandler :=
  fun args =>
    if hasWriteParam args then
      .error (.readOnlyViolation (wrapViolationMessage toolName))
    else handler args

/-- One entry of the registry: the (enhanced) tool together with its
(wrapped) handler; the two `Map`s of `ToolRegistry` share their keys. -/
structure RegEntry where
  tool : MCPTool
  handler : ToolHandler

/-- The registry state. -/
abbrev Registry := List RegEntry

/-- `Map.set` semantics keyed by tool name: overwrite an existing entry
in place, otherwise append. -/
def upsertEntry (reg : Registry) (e : RegEntry) : Registry :=
  if reg.any (fun x => decide (x.tool.name = e.tool.name)) then
    reg.map fun x => if x.tool.name = e.tool.name then e else x
  else reg ++ [e]

/-- `ToolRegistry.registerTool`: validate, enhance the description, and
store the tool with its wrapped handler. -/
def registerTool (reg : Registry) (tool : MCPTool) (handler : ToolHandler) :
    Except MCPError Registry :=
  match validateReadOnlyTool tool with
  | .error e => .error e
  | .ok _ =>
    let enhancedTool := enhanceToolDescription tool
    .ok (upsertEntry reg ⟨enhancedTool, wrapHandler enhancedTool.name handler⟩)

/-- Sequentially register a list of tools onto a registry, stopping at
the first rejection (each item is one `registerTool` call). -/
def registerAllFrom : Registry → List (MCPTool × ToolHandler) → Except MCPError Registry
  | reg, [] => .ok reg
  | reg, p :: rest =>
    match registerTool reg p.1 p.2 with
    | .error e => .error e
    | .ok nextReg => registerAllFrom nextReg rest

/-- Register a list of tools starting from the empty registry. -/
def registerAll (items : List (MCPTool × ToolHandler)) : Except MCPError Registry :=
  registerAllFrom [] items

/-- `handlers.get(name)`. -/
def lookupHandler (reg : Registry) (name : Str) : Option ToolHandler :=
  (reg.find? fun e => decide (e.tool.name = name)).map fun e => e.handler

/-- `ToolRegistry.executeTool`: unknown tools raise an error, known
tools run their stored (wrapped) handler on the arguments; the
`try`/`catch` re-throws the handler error unchanged. -/
def executeTool (reg : Registry) (name : Str) (args : ToolArgs) :
    Except MCPError Str :=
  match lookupHandler reg name with
  | none => .error (.generic (("存在しないツール: ").toList ++ name))
  | some handler => handler args

/-- A request function used to instantiate client theorems. -/
def demoRes : Nat → Except ClientError Str := fun _ => .ok []

/-- The state used by requirement 10.1 of `workspace-config.test.ts`:
both the environment and the workspace file define every setting. -/
def bothSourcesWorld : World :=
  ⟨⟨some ("system.backlog.com").toList, some ("system-api-key").toList,
    some ("SYSTEM").toList, none, none⟩,
   some ("BACKLOG_DOMAIN=custom.backlog.com\nBACKLOG_API_KEY=custom-api-key\nBACKLOG_DEFAULT_PROJECT=CUSTOM\nBACKLOG_MAX_RETRIES=5\nBACKLOG_TIMEOUT=45000").toList⟩

/-- Split a string at its first occurrence of a separator character,
keeping the remainder (with any further separators) intact. -/
def breakAtFirst (sep : Char) : Str → Option (Str × Str)
  | [] => none
  | c :: r =>
    if c = sep then some ([], r)
    else (breakAtFirst sep r).map fun p => (c :: p.1, p.2)

/-- Modelled from the claim's words (C6): an entry is produced for
every line whose trim is non-empty, does not start with `#` and
contains at least one `=`; the key is the text before the first `=`
trimmed, the value is the text after the first `=` trimmed and
quote-stripped. -/
def specParseLine (line : Str) : Option (Str × Str) :=
  let t := trimStr line
  if t.isEmpty then none
  else if t.head? = some '#' then none
  else
    match breakAtFirst '=' t with
    | none => none
    | some kv => some (trimStr kv.1, stripQuotes (trimStr kv.2))

/-- The claim's parser, applied to every line of the content. -/
def specParseWorkspace (content : Str) : List (Str × Str) :=
  (splitOnChar '\n' content).filterMap specParseLine

/-- The claim's parser amended with the key-truthiness check the code
performs: a line whose text before the first `=` is empty produces no
entry. -/
def specParseLineAmended (line : Str) : Option (Str × Str) :=
  let t := trimStr line
  if t.isEmpty then none
  else if t.head? = some '#' then none
  else
    match breakAtFirst '=' t with
    | none => none
    | some kv =>
      if kv.1.isEmpty then none
      else some (trimStr kv.1, stripQuotes (trimStr kv.2))

/-- The amended parser, applied to every line of the content. -/
def specParseWorkspaceAmended (content : Str) : List (Str × Str) :=
  (splitOnChar '\n' content).filterMap specParseLineAmended

/-- Modelled from the claim's words (C5): `retryAfter` is the integer
value of the `Retry-After` header, defaulting to 60 when the header is
absent or unparsable, and the wait is `min retryAfter 60` seconds. -/
def specRateLimitWaitMs (header : Option Str) : Int :=
  let retryAfter : Int :=
    match header with
    | none => 60
    | some s =>
      match jsParseInt s with
      | some n => n
      | none => 60
  min retryAfter 60 * 1000

/-- A 429 error whose `Retry-After` header is non-empty but not a
number. -/
def unparsableHeaderErr : AxiosErrInfo :=
  ⟨some ⟨429, some ("abc").toList, none⟩, true, none, true, []⟩

/-- The wait of the amended claim: 60 s when the header is absent or
empty, no wait at all when it is non-empty but unparsable (`NaN`), and
otherwise `min (retryAfter * 1000) 60000` clamped at 0. -/
def amendedRateLimitWaitMs (header : Option Str) : Nat :=
  match header with
  | none => 60000
  | some s =>
    if s.isEmpty then 60000
    else
      match jsParseInt s with
      | none => 0
      | some n => (min (n * 1000) 60000).toNat

/-- A network error with a request but no response, carrying a
transient error code. -/
def timeoutNetworkError : ClientError :=
  .axios ⟨none, true, some ("ETIMEDOUT").toList, false, []⟩

/-- Whether an error carries no response object. -/
def responseAbsent : ClientError → Bool
  | .axios e => e.response.isNone
  | _ => false

/-- Whether an error carries a request object. -/
def requestPresent : ClientError → Bool
  | .axios e => e.hasRequest
  | _ => false

/-- The error code carried by an axios error. -/
def codeOf : ClientError → Option Str
  | .axios e => e.code
  | _ => none

/-- A request function that fails once with a 503 and then succeeds. -/
def demoRetryRes : Nat → Except ClientError Str := fun n =>
  if n = 1 then .error (.axios ⟨some ⟨503, none, none⟩, true, none, true, []⟩)
  else .ok (("v").toList)

/-- The read-only property every stored registry entry satisfies. -/
def entryOk (x : RegEntry) : Prop :=
  nameIsWriteOperation x.tool.name = false ∧
  jsIncludes ((x.tool.description).getD []) roMarker = true

/-- A handler used to instantiate registry theorems. -/
def demoHandler : ToolHandler := fun _ => .ok []

/-- A read-only tool used to instantiate the call-time check. -/
def demoTool : MCPTool := ⟨("get_issue").toList, none⟩

/-- The registry obtained by registering `demoTool`. -/
def demoRegistry : Registry :=
  upsertEntry [] ⟨enhanceToolDescription demoTool,
    wrapHandler (enhanceToolDescription demoTool).name demoHandler⟩

/-- Whether an `Except` is an error. -/
def isErrorB : Except ε α → Bool
  | .error _ => true
  | .ok _ => false

/-- Modelled from the claim's words (C10): the environment alone
yields both credentials. -/
def specSourceYieldsBothEnv (w : World) : Bool :=
  truthy w.env.domain && truthy w.env.apiKey

/-- Modelled from the claim's words (C10): the workspace file alone
yields both credentials. -/
def specSourceYieldsBothWs (w : World) : Bool :=
  truthy (wsVal w ("BACKLOG_DOMAIN").toList) &&
    truthy (wsVal w ("BACKLOG_API_KEY").toList)

/-- A state where the environment has only the domain and the
workspace file has only the API key. -/
def crossWorld : World :=
  ⟨⟨some ("d.example.com").toList, none, none, none, none⟩,
   some ("BACKLOG_API_KEY=k123").toList⟩

/-- A state whose environment carries both credentials and no file. -/
def okWorld : World := ⟨⟨some ("a").toList, some ("b").toList, none, none, none⟩, none⟩

/-- The configuration `okWorld` resolves to. -/
def okCfg : BacklogConfig := ⟨("a").toList, ("b").toList, none, some 3, some 30000⟩

/-- A state with nothing defined at all. -/
def emptyWorld : World := ⟨⟨none, none, none, none, none⟩, none⟩

/-! ### Theorems -/

/-- C9: backoff delay formula.  For every attempt number `n ≥ 1` the
delay before the next retry is `min (2^(n-1) * 1000) 30000`
milliseconds; the sequence starts at 1000 ms, doubles at every step,
and is capped at 30000 ms. -/
theorem backoff_delay_formula (n : Nat) (h : 1 ≤ n) :
    calculateBackoffDelay n = min (2 ^ (n - 1) * 1000) 30000 ∧
    calculateBackoffDelay 1 = 1000 ∧
    calculateBackoffDelay n ≤ 30000 ∧
    calculateBackoffDelay (n + 1) = min (2 * calculateBackoffDelay n) 30000 := by
  refine ⟨rfl, by decide, Nat.min_le_right _ _, ?_⟩
  cases n with
  | zero => omega
  | succ m =>
    simp only [calculateBackoffDelay, Nat.add_sub_cancel, Nat.succ_sub_one]
    rw [Nat.pow_succ]
    generalize (2 : Nat) ^ m = a
    omega

/-- C9 witness: the formula evaluated at attempt 3. -/
theorem backoff_delay_formula_witness :
    1 ≤ 3 ∧ (calculateBackoffDelay 3 = min (2 ^ (3 - 1) * 1000) 30000 ∧
      calculateBackoffDelay 1 = 1000 ∧ calculateBackoffDelay 3 ≤ 30000 ∧
      calculateBackoffDelay (3 + 1) = min (2 * calculateBackoffDelay 3) 30000) :=
  ⟨by decide, backoff_delay_formula 3 (by decide)⟩

/-- C3: GET-only API client.  `post`, `put` and `delete` issue no HTTP
request and unconditionally throw a `ReadOnlyViolationError`, while
every request issued by `get` uses the GET method. -/
theorem client_readonly_http_methods :
    clientPost.1 = [] ∧
    clientPost.2 = .error (.readOnlyViolation
      ("このMCPサーバーは読み取り専用です。POSTリクエストは許可されていません。").toList) ∧
    clientPut.1 = [] ∧
    clientPut.2 = .error (.readOnlyViolation
      ("このMCPサーバーは読み取り専用です。PUTリクエストは許可されていません。").toList) ∧
    clientDelete.1 = [] ∧
    clientDelete.2 = .error (.readOnlyViolation
      ("このMCPサーバーは読み取り専用です。DELETEリクエストは許可されていません。").toList) ∧
    ∀ (endpoint : Str) (maxRetries : Nat) (res : Nat → Except ClientError Str)
      (r : HttpRequest), r ∈ (clientGet endpoint maxRetries res).1 →
        r.method = ("GET").toList := by
  refine ⟨rfl, rfl, rfl, rfl, rfl, rfl, ?_⟩
  intro endpoint maxRetries res r hr
  simp only [clientGet, List.mem_map] at hr
  obtain ⟨_, _, rfl⟩ := hr
  rfl

/-- C3 witness: the single request of a successful `get` is a GET. -/
theorem client_readonly_http_methods_witness :
    (⟨("GET").toList, ("/projects").toList⟩ : HttpRequest) ∈
      (clientGet ("/projects").toList 0 demoRes).1 ∧
    (⟨("GET").toList, ("/projects").toList⟩ : HttpRequest).method =
      ("GET").toList :=
  ⟨by decide,
   client_readonly_http_methods.2.2.2.2.2.2 ("/projects").toList 0 demoRes
     ⟨("GET").toList, ("/projects").toList⟩ (by decide)⟩

/-- C1: configuration precedence at the failing input.  When both the
workspace file and the environment define the credentials,
`loadConfig` resolves `BACKLOG_DOMAIN` and `BACKLOG_API_KEY` from the
workspace file, not from the environment — the repository's own test
(`workspace-config.test.ts`, 要件10.4) and the specification expect
the environment values `system.backlog.com` / `system-api-key` here. -/
theorem config_credentials_from_workspace :
    resolveConfig bothSourcesWorld = .ok
      ⟨("custom.backlog.com").toList, ("custom-api-key").toList,
       some ("CUSTOM").toList, some 5, some 45000⟩ ∧
    ("custom.backlog.com").toList ≠ ("system.backlog.com").toList ∧
    ("custom-api-key").toList ≠ ("system-api-key").toList :=
  ⟨rfl, by decide, by decide⟩

/-- C6 counterexample: on the line `=x` the code produces no entry
(the part before `=` is empty, hence falsy), while the claim's reading
produces the entry with empty key. -/
theorem workspace_parse_empty_key_counterexample :
    parseWorkspaceConfig ("=x").toList = [] ∧
    specParseWorkspace ("=x").toList = [([], ("x").toList)] ∧
    parseWorkspaceConfig ("=x").toList ≠ specParseWorkspace ("=x").toList := by
  decide

theorem splitOnChar_ne_nil (sep : Char) (l : Str) : splitOnChar sep l ≠ [] := by
  cases l with
  | nil => simp [splitOnChar]
  | cons c rest =>
    simp only [splitOnChar]
    cases h : splitOnChar sep rest with
    | nil => simp
    | cons h t =>
      by_cases hc : c = sep <;> simp [hc]

theorem splitOnChar_eq_breakAtFirst (sep : Char) (l : Str) :
    splitOnChar sep l =
      match breakAtFirst sep l with
      | none => [l]
      | some p => p.1 :: splitOnChar sep p.2 := by
  induction l with
  | nil => rfl
  | cons c rest ih =>
    by_cases hc : c = sep
    · subst hc
      simp only [splitOnChar, breakAtFirst, if_pos rfl]
      cases h : splitOnChar c rest with
      | nil => exact absurd h (splitOnChar_ne_nil c rest)
      | cons a b => simp [h]
    · simp only [splitOnChar, breakAtFirst, if_neg hc]
      cases hb : breakAtFirst sep rest with
      | none =>
        rw [hb] at ih
        simp only at ih
        simp [ih]
      | some p =>
        rw [hb] at ih
        simp only at ih
        simp [ih]

theorem joinSep_splitOnChar (sep : Char) (l : Str) :
    joinSep sep (splitOnChar sep l) = l := by
  induction l with
  | nil => simp [splitOnChar, joinSep]
  | cons c rest ih =>
    simp only [splitOnChar]
    cases h : splitOnChar sep rest with
    | nil => exact absurd h (splitOnChar_ne_nil sep rest)
    | cons a b =>
      rw [h] at ih
      by_cases hc : c = sep
      · simp only [if_pos hc, joinSep, hc]
        cases b with
        | nil => simp [joinSep] at ih ⊢; exact ih
        | cons x y => simp [joinSep] at ih ⊢; exact ih
      · simp only [if_neg hc, joinSep]
        cases b with
        | nil => simp [joinSep] at ih ⊢; simp [ih]
        | cons x y => simp [joinSep] at ih ⊢; simp [ih]

theorem parseLine_eq_amended (line : Str) :
    parseLine line = specParseLineAmended line := by
  simp only [parseLine, specParseLineAmended]
  by_cases h1 : (trimStr line).isEmpty
  · simp [h1]
  · by_cases h2 : (trimStr line).head? = some '#'
    · simp [h1, h2]
    · rw [splitOnChar_eq_breakAtFirst]
      cases hb : breakAtFirst '=' (trimStr line) with
      | none => simp [h1, h2]
      | some p =>
        have hne2 : (splitOnChar '=' p.2).isEmpty = false := by
          cases h : splitOnChar '=' p.2 with
          | nil => exact absurd h (splitOnChar_ne_nil '=' p.2)
          | cons a b => rfl
        simp [h1, h2, hne2, joinSep_splitOnChar]

/-- C6 (amended): the workspace parser produces, for each line, the
entry described by the claim, additionally requiring the text before
the first `=` to be non-empty. -/
theorem workspace_parse_amended (content : Str) :
    parseWorkspaceConfig content = specParseWorkspaceAmended content := by
  unfold parseWorkspaceConfig specParseWorkspaceAmended
  rw [show parseLine = specParseLineAmended from funext parseLine_eq_amended]

/-- C5 counterexample: with `Retry-After: abc` the interceptor waits 0
ms — `parseInt('abc')` is `NaN`, which `setTimeout` coerces to 0 —
while the claim says it waits the default 60 seconds. -/
theorem rate_limit_unparsable_header_counterexample :
    handleError unparsableHeaderErr = ⟨0, .resend⟩ ∧
    (specRateLimitWaitMs (some ("abc").toList)).toNat = 60000 ∧
    (handleError unparsableHeaderErr).waitedMs ≠
      (specRateLimitWaitMs (some ("abc").toList)).toNat := by
  decide

theorem handleRateLimitWait_eq_amended (header : Option Str) :
    handleRateLimitWait header = amendedRateLimitWaitMs header := by
  cases header with
  | none => decide
  | some s =>
    by_cases hs : s.isEmpty
    · rw [List.isEmpty_iff] at hs
      subst hs
      decide
    · simp only [handleRateLimitWait, rateLimitWaitMsRaw, jsOrStr, jsOr,
        truthy, hs, Bool.not_false, if_pos, amendedRateLimitWaitMs,
        if_neg hs]
      cases h : jsParseInt s with
      | none => rfl
      | some n => rfl

/-- C5 (amended): on a 429 response the interceptor waits
`amendedRateLimitWaitMs` (60 s default only for an absent or empty
`Retry-After` header; an unparsable header yields `NaN` and hence no
wait) and then re-sends the request when the error carries its request
config, re-throwing otherwise; every non-429 error is re-thrown with no
wait. -/
theorem rate_limit_handling (e : AxiosErrInfo) :
    (∀ r, e.response = some r → r.status = 429 →
        handleError e = ⟨amendedRateLimitWaitMs r.retryAfterHeader,
          if e.hasConfig then .resend else .rethrow⟩) ∧
    (∀ r, e.response = some r → r.status ≠ 429 →
        handleError e = ⟨0, .rethrow⟩) ∧
    (e.response = none → handleError e = ⟨0, .rethrow⟩) := by
  refine ⟨?_, ?_, ?_⟩
  · intro r hr h429
    simp only [handleError, hr, h429, if_pos, handleRateLimitWait_eq_amended]
    cases e.hasConfig <;> simp
  · intro r hr h429
    simp [handleError, hr, h429]
  · intro hr
    simp [handleError, hr]

/-- C5 witness: a 429 response with `Retry-After: 5` and a request
config waits 5000 ms and re-sends. -/
theorem rate_limit_handling_witness :
    (⟨some ⟨429, some ("5").toList, none⟩, true, none, true, []⟩ :
        AxiosErrInfo).response = some ⟨429, some ("5").toList, none⟩ ∧
    handleError ⟨some ⟨429, some ("5").toList, none⟩, true, none, true, []⟩ =
      ⟨5000, .resend⟩ := by
  refine ⟨rfl, ?_⟩
  have h := (rate_limit_handling
    ⟨some ⟨429, some ("5").toList, none⟩, true, none, true, []⟩).1
    ⟨429, some ("5").toList, none⟩ rfl rfl
  simpa using h

/-- C4 counterexample: the client also retries failures that carry no
HTTP response status at all — a timed-out request (code `ETIMEDOUT`,
no response) is retried, refuting `retry exactly when the status is
429 or 5xx`. -/
theorem retry_without_status_counterexample :
    shouldRetry timeoutNetworkError = true ∧
    statusOf timeoutNetworkError = none ∧
    ¬(shouldRetry timeoutNetworkError = true ↔
        (statusOf timeoutNetworkError = some 429 ∨
         ∃ s, statusOf timeoutNetworkError = some s ∧ 500 ≤ s)) := by
  refine ⟨by decide, by decide, ?_⟩
  intro h
  have hnone : statusOf timeoutNetworkError = none := by decide
  rcases h.mp (by decide) with h1 | ⟨s, hs, _⟩
  · rw [hnone] at h1
    exact Option.noConfusion h1
  · rw [hnone] at hs
    exact Option.noConfusion hs

/-- C4 (amended): a failed attempt is retried exactly when the response
status is 429 or 5xx, or when the failure is a network error with a
request but no response whose error code is not a non-empty permanent
code; every other failure, including every non-axios error, is not
retried. -/
theorem should_retry_characterization (err : ClientError) :
    shouldRetry err = true ↔
      (statusOf err = some 429 ∨
       (∃ s, statusOf err = some s ∧ 500 ≤ s) ∨
       (responseAbsent err = true ∧ requestPresent err = true ∧
        ¬∃ c, codeOf err = some c ∧ c ≠ [] ∧ c ∈ permanentErrorCodes)) := by
  cases err with
  | nonError => simp [shouldRetry, statusOf, responseAbsent, requestPresent]
  | jsError m => simp [shouldRetry, statusOf, responseAbsent, requestPresent]
  | axios e =>
    obtain ⟨resp, hasReq, code, hasCfg, msg⟩ := e
    cases resp with
    | some r =>
      simp only [shouldRetry, statusOf, responseAbsent, requestPresent,
        Option.map_some', Option.isNone_some, Bool.false_eq_true, false_and,
        or_false, Option.some.injEq, Bool.or_eq_true, decide_eq_true_eq]
      constructor
      · rintro (h | h)
        · exact Or.inl h
        · exact Or.inr ⟨r.status, rfl, h⟩
      · rintro (h | ⟨s, hs, h5⟩)
        · exact Or.inl h
        · exact Or.inr (by omega)
    | none =>
      cases hasReq with
      | false =>
        simp [shouldRetry, statusOf, responseAbsent, requestPresent]
      | true =>
        cases code with
        | none =>
          simp [shouldRetry, statusOf, responseAbsent, requestPresent, codeOf]
        | some c =>
          by_cases hnil : c = []
          · subst hnil
            simp [shouldRetry, statusOf, responseAbsent, requestPresent, codeOf]
          · have hF : c.isEmpty = false := by
              cases hE : c.isEmpty with
              | false => rfl
              | true => exact absurd (List.isEmpty_iff.mp hE) hnil
            by_cases hmem : c ∈ permanentErrorCodes
            · simp [shouldRetry, statusOf, responseAbsent, requestPresent,
                codeOf, hF, hmem, hnil]
            · simp [shouldRetry, statusOf, responseAbsent, requestPresent,
                codeOf, hF, hmem, hnil]

theorem ewrAux_spec {α : Type} (maxR : Nat) (res : Nat → Except ClientError α) :
    ∀ (fuel attempt n : Nat) (out : Except MCPError α),
      attempt + fuel = maxR + 2 → 1 ≤ attempt → attempt ≤ maxR + 1 →
      ewrAux maxR res attempt fuel = (n, out) →
      attempt ≤ n ∧ n ≤ maxR + 1 ∧
      (∀ m, attempt ≤ m → m < n →
        ∃ e, res m = .error e ∧ shouldRetry e = true) ∧
      ((∃ v, res n = .ok v ∧ out = .ok v) ∨
       (∃ e, res n = .error e ∧ out = .error (convertToBacklogError e) ∧
          (n = maxR + 1 ∨ shouldRetry e = false))) := by
  intro fuel
  induction fuel with
  | zero =>
    intro attempt n out hinv h1 h2 heq
    omega
  | succ fuel ih =>
    intro attempt n out hinv h1 h2 heq
    rw [ewrAux] at heq
    cases hres : res attempt with
    | ok v =>
      rw [hres] at heq
      simp only [Prod.mk.injEq] at heq
      obtain ⟨rfl, rfl⟩ := heq
      refine ⟨le_refl _, h2, ?_, Or.inl ⟨v, hres, rfl⟩⟩
      intro m hm1 hm2
      omega
    | error e =>
      rw [hres] at heq
      simp only at heq
      split at heq
      case isTrue hcond =>
        have hrec := ih (attempt + 1) n out (by omega) (by omega) (by omega) heq
        refine ⟨by omega, hrec.2.1, ?_, hrec.2.2.2⟩
        intro m hm1 hm2
        have hcase : m = attempt ∨ attempt + 1 ≤ m := by omega
        rcases hcase with rfl | hge
        · exact ⟨e, hres, hcond.2⟩
        · exact hrec.2.2.1 m hge hm2
      case isFalse hcond =>
        simp only [Prod.mk.injEq] at heq
        obtain ⟨rfl, rfl⟩ := heq
        refine ⟨le_refl _, h2, ?_, Or.inr ⟨e, hres, rfl, ?_⟩⟩
        · intro m hm1 hm2
          omega
        · rcases not_and_or.mp hcond with h | h
          · left
            omega
          · right
            cases hsr : shouldRetry e with
            | false => rfl
            | true => exact absurd hsr h

/-- C8: bounded retry termination.  With `maxRetries = k` the retry
loop invokes the request function at most `k + 1` times and
terminates: it returns the first successful result, every earlier
attempt failed with a retryable error, and on failure it throws the
error converted by `convertToBacklogError` either after the attempt
limit is reached or at the first non-retryable failure. -/
theorem execute_with_retry_bounded {α : Type} (maxRetries : Nat)
    (res : Nat → Except ClientError α) (n : Nat) (out : Except MCPError α)
    (h : executeWithRetry maxRetries res = (n, out)) :
    1 ≤ n ∧ n ≤ maxRetries + 1 ∧
    (∀ m, 1 ≤ m → m < n →
      ∃ e, res m = .error e ∧ shouldRetry e = true) ∧
    ((∃ v, res n = .ok v ∧ out = .ok v) ∨
     (∃ e, res n = .error e ∧ out = .error (convertToBacklogError e) ∧
        (n = maxRetries + 1 ∨ shouldRetry e = false))) :=
  ewrAux_spec maxRetries res (maxRetries + 1) 1 n out (by omega) (by omega)
    (by omega) h

/-- C8 witness: with one retry allowed, the 503-then-success sequence
takes exactly 2 invocations. -/
theorem execute_with_retry_bounded_witness : 1 ≤ 2 ∧ 2 ≤ 1 + 1 :=
  have h := execute_with_retry_bounded 1 demoRetryRes 2 (.ok (("v").toList)) rfl
  ⟨h.1, h.2.1⟩

theorem isPrefixOf_append_self (a b : Str) : List.isPrefixOf a (a ++ b) = true := by
  induction a with
  | nil => simp [List.isPrefixOf]
  | cons c r ih => simp [List.isPrefixOf, ih]

theorem jsIncludes_append (a sub b : Str) :
    jsIncludes (a ++ sub ++ b) sub = true := by
  induction a with
  | nil =>
    simp only [List.nil_append]
    cases hsb : sub ++ b with
    | nil =>
      have hs : sub = [] := (List.append_eq_nil.mp hsb).1
      subst hs
      rfl
    | cons c rest =>
      simp only [jsIncludes]
      rw [← hsb, isPrefixOf_append_self]
      simp
  | cons c rest ih =>
    rw [show ((c :: rest) ++ sub ++ b) = c :: (rest ++ sub ++ b) by simp]
    simp only [jsIncludes]
    rw [ih, Bool.or_true]

theorem jsIncludes_marker_append (d : Str) :
    jsIncludes (d ++ ("（読み取り専用）").toList) roMarker = true := by
  have h : ("（読み取り専用）").toList = ['（'] ++ roMarker ++ ['）'] := by decide
  rw [h, show d ++ (['（'] ++ roMarker ++ ['）']) =
    (d ++ ['（']) ++ roMarker ++ ['）'] by simp]
  exact jsIncludes_append (d ++ ['（']) roMarker ['）']

theorem enhance_name (tool : MCPTool) :
    (enhanceToolDescription tool).name = tool.name := by
  simp only [enhanceToolDescription]
  split <;> rfl

theorem enhance_marker (tool : MCPTool) :
    jsIncludes (((enhanceToolDescription tool).description).getD [])
      roMarker = true := by
  simp only [enhanceToolDescription]
  split
  case isTrue h => exact h
  case isFalse h =>
    simp only [Option.getD_some]
    exact jsIncludes_marker_append _

theorem validate_ok_name (tool : MCPTool)
    (h : validateReadOnlyTool tool = .ok ()) :
    nameIsWriteOperation tool.name = false := by
  cases hn : nameIsWriteOperation tool.name with
  | false => rfl
  | true =>
    rw [validateReadOnlyTool, if_pos hn] at h
    exact Except.noConfusion h

theorem registerTool_ok (reg : Registry) (tool : MCPTool) (handler : ToolHandler)
    (reg' : Registry) (heq : registerTool reg tool handler = .ok reg') :
    validateReadOnlyTool tool = .ok () ∧
    reg' = upsertEntry reg ⟨enhanceToolDescription tool,
      wrapHandler (enhanceToolDescription tool).name handler⟩ := by
  unfold registerTool at heq
  cases hv : validateReadOnlyTool tool with
  | error e =>
    rw [hv] at heq
    exact Except.noConfusion heq
  | ok u =>
    cases u
    rw [hv] at heq
    simp only [Except.ok.injEq] at heq
    exact ⟨rfl, heq.symm⟩

theorem mem_upsertEntry {x e : RegEntry} {reg : Registry}
    (hx : x ∈ upsertEntry reg e) : x = e ∨ x ∈ reg := by
  unfold upsertEntry at hx
  split at hx
  · obtain ⟨y, hy, hxy⟩ := List.mem_map.mp hx
    by_cases hname : y.tool.name = e.tool.name
    · rw [if_pos hname] at hxy
      exact Or.inl hxy.symm
    · rw [if_neg hname] at hxy
      exact Or.inr (hxy ▸ hy)
  · rcases List.mem_append.mp hx with h | h
    · exact Or.inr h
    · exact Or.inl (by simpa using h)

theorem registerTool_preserves (reg : Registry) (tool : MCPTool)
    (handler : ToolHandler) (reg' : Registry)
    (heq : registerTool reg tool handler = .ok reg')
    (hreg : ∀ x ∈ reg, entryOk x) : ∀ x ∈ reg', entryOk x := by
  obtain ⟨hv, rfl⟩ := registerTool_ok reg tool handler reg' heq
  intro x hx
  rcases mem_upsertEntry hx with rfl | hxm
  · constructor
    · rw [enhance_name]
      exact validate_ok_name tool hv
    · exact enhance_marker tool
  · exact hreg x hxm

theorem registerAllFrom_inv :
    ∀ (items : List (MCPTool × ToolHandler)) (reg₀ reg : Registry),
      registerAllFrom reg₀ items = .ok reg →
      (∀ x ∈ reg₀, entryOk x) → ∀ x ∈ reg, entryOk x := by
  intro items
  induction items with
  | nil =>
    intro reg₀ reg heq h0
    rw [registerAllFrom] at heq
    injection heq with h
    subst h
    exact h0
  | cons p rest ih =>
    intro reg₀ reg heq h0
    rw [registerAllFrom] at heq
    cases hr : registerTool reg₀ p.1 p.2 with
    | error e =>
      rw [hr] at heq
      exact Except.noConfusion heq
    | ok reg₁ =>
      rw [hr] at heq
      exact ih reg₁ reg heq (registerTool_preserves reg₀ p.1 p.2 reg₁ hr h0)

/-- C2: read-only registry invariant.  `registerTool` throws a
`ReadOnlyViolationError` for every tool whose name starts
(case-insensitively) with a write-operation pattern and for every tool
whose description contains a write keyword without the marker
読み取り専用; consequently every tool stored by any sequence of
registrations has a non-write name and a description containing
読み取り専用. -/
theorem registry_readonly_invariant :
    (∀ (reg : Registry) (tool : MCPTool) (handler : ToolHandler),
        (nameIsWriteOperation tool.name = true ∨
         (descHasWriteKeyword ((tool.description).getD []) = true ∧
          jsIncludes ((tool.description).getD []) roMarker = false)) →
        ∃ msg, registerTool reg tool handler =
          .error (.readOnlyViolation msg)) ∧
    (∀ (items : List (MCPTool × ToolHandler)) (reg : Registry),
        registerAll items = .ok reg →
        ∀ x ∈ reg, nameIsWriteOperation x.tool.name = false ∧
          jsIncludes ((x.tool.description).getD []) roMarker = true) := by
  constructor
  · intro reg tool handler hbad
    by_cases hn : nameIsWriteOperation tool.name = true
    · refine ⟨("読み取り専用制限違反: ツール \x22").toList ++ tool.name ++
        ("\x22 は書き込み操作を示すため登録できません。このMCPサーバーは読み取り専用です。").toList, ?_⟩
      unfold registerTool validateReadOnlyTool
      rw [if_pos hn]
    · rcases hbad with hn' | ⟨hk, hm⟩
      · exact absurd hn' hn
      · refine ⟨("読み取り専用制限違反: ツール \x22").toList ++ tool.name ++
          ("\x22 の説明に書き込み操作を示すキーワードが含まれていますが、読み取り専用の明記がありません。").toList, ?_⟩
        unfold registerTool validateReadOnlyTool
        rw [if_neg hn, if_pos (by simp [hk, hm])]
  · intro items reg heq x hx
    exact registerAllFrom_inv items [] reg heq (by simp) x hx

/-- C2 witness: registering a tool named `create_issue` is rejected. -/
theorem registry_readonly_invariant_witness :
    nameIsWriteOperation (("create_issue").toList) = true ∧
    ∃ msg, registerTool [] ⟨("create_issue").toList, none⟩ demoHandler =
      .error (.readOnlyViolation msg) :=
  ⟨by decide,
   registry_readonly_invariant.1 [] ⟨("create_issue").toList, none⟩
     demoHandler (Or.inl (by decide))⟩

theorem find_map_hit (reg : Registry) (e : RegEntry)
    (h : reg.any (fun x => decide (x.tool.name = e.tool.name)) = true) :
    (reg.map fun x => if x.tool.name = e.tool.name then e else x).find?
      (fun x => decide (x.tool.name = e.tool.name)) = some e := by
  induction reg with
  | nil => simp at h
  | cons y rest ih =>
    simp only [List.map_cons]
    by_cases hy : y.tool.name = e.tool.name
    · rw [if_pos hy]
      simp [List.find?]
    · rw [if_neg hy]
      have hrest : rest.any (fun x => decide (x.tool.name = e.tool.name)) = true := by
        simp only [List.any_cons, Bool.or_eq_true] at h
        rcases h with h | h
        · exact absurd (of_decide_eq_true h) hy
        · exact h
      rw [List.find?]
      simp only [decide_eq_false hy]
      exact ih hrest

theorem find_append_miss (reg : Registry) (e : RegEntry)
    (h : reg.any (fun x => decide (x.tool.name = e.tool.name)) = false) :
    (reg ++ [e]).find? (fun x => decide (x.tool.name = e.tool.name)) = some e := by
  induction reg with
  | nil => simp [List.find?]
  | cons y rest ih =>
    simp only [List.any_cons, Bool.or_eq_false_iff] at h
    obtain ⟨hy, hrest⟩ := h
    simp only [List.cons_append]
    rw [List.find?]
    simp only [hy]
    exact ih hrest

theorem lookupHandler_upsert (reg : Registry) (e : RegEntry) (nm : Str)
    (hnm : e.tool.name = nm) :
    lookupHandler (upsertEntry reg e) nm = some e.handler := by
  subst hnm
  unfold lookupHandler upsertEntry
  by_cases h : reg.any (fun x => decide (x.tool.name = e.tool.name)) = true
  · rw [if_pos h, find_map_hit reg e h]
    rfl
  · have h' : reg.any (fun x => decide (x.tool.name = e.tool.name)) = false := by
      cases hc : reg.any (fun x => decide (x.tool.name = e.tool.name)) with
      | false => rfl
      | true => exact absurd hc h
    rw [if_neg h, find_append_miss reg e h']
    rfl

/-- C7: call-time read-only check.  After a successful registration,
executing the tool with arguments containing a write parameter (a key
that, lower-cased, equals or underscore-prefixes one of the write
words) throws a `ReadOnlyViolationError` without reaching the
underlying handler; otherwise the underlying handler runs on exactly
the given arguments. -/
theorem execute_tool_write_param_check (reg reg' : Registry) (tool : MCPTool)
    (handler : ToolHandler)
    (heq : registerTool reg tool handler = .ok reg') (args : ToolArgs) :
    (hasWriteParam args = true →
      executeTool reg' tool.name args =
        .error (.readOnlyViolation (wrapViolationMessage tool.name))) ∧
    (hasWriteParam args = false →
      executeTool reg' tool.name args = handler args) := by
  obtain ⟨hv, rfl⟩ := registerTool_ok reg tool handler reg' heq
  have hlook := lookupHandler_upsert reg
    ⟨enhanceToolDescription tool, wrapHandler (enhanceToolDescription tool).name handler⟩
    tool.name (enhance_name tool)
  constructor
  · intro hw
    simp only [executeTool, hlook]
    simp [wrapHandler, hw, enhance_name]
  · intro hw
    simp only [executeTool, hlook]
    simp [wrapHandler, hw]

/-- C7 witness: calling `get_issue` with an argument named `delete`
throws the read-only violation. -/
theorem execute_tool_write_param_check_witness :
    registerTool [] demoTool demoHandler = .ok demoRegistry ∧
    hasWriteParam [(("delete").toList, ("1").toList)] = true ∧
    executeTool demoRegistry (("get_issue").toList)
        [(("delete").toList, ("1").toList)] =
      .error (.readOnlyViolation (wrapViolationMessage (("get_issue").toList))) := by
  refine ⟨rfl, by decide, ?_⟩
  exact (execute_tool_write_param_check [] demoRegistry demoTool demoHandler rfl
    [(("delete").toList, ("1").toList)]).1 (by decide)

/-- C10 counterexample: with the domain only in the environment and
the API key only in the workspace file, neither source yields both
credentials, yet `loadConfig` succeeds — so `loadConfig` does not
throw exactly when neither source yields both. -/
theorem config_throw_condition_counterexample :
    specSourceYieldsBothEnv crossWorld = false ∧
    specSourceYieldsBothWs crossWorld = false ∧
    loadConfig ⟨none⟩ crossWorld =
      (.ok ⟨("d.example.com").toList, ("k123").toList, none, some 3, some 30000⟩,
       ⟨some ⟨("d.example.com").toList, ("k123").toList, none, some 3, some 30000⟩⟩) ∧
    ¬(isErrorB (loadConfig ⟨none⟩ crossWorld).1 = true ↔
        (specSourceYieldsBothEnv crossWorld = false ∧
         specSourceYieldsBothWs crossWorld = false)) := by
  refine ⟨by decide, by decide, rfl, ?_⟩
  intro h
  have hmpr := h.mpr ⟨by decide, by decide⟩
  have hfalse : isErrorB (loadConfig ⟨none⟩ crossWorld).1 = false := rfl
  rw [hfalse] at hmpr
  exact Bool.noConfusion hmpr

theorem resolveConfig_error_iff (w : World) :
    isErrorB (resolveConfig w) = true ↔
      (truthy (jsOr (wsVal w ("BACKLOG_DOMAIN").toList) w.env.domain) = false ∨
       truthy (jsOr (wsVal w ("BACKLOG_API_KEY").toList) w.env.apiKey) = false) := by
  simp only [resolveConfig]
  split
  case isTrue hcond =>
    have hcond' := hcond
    simp only [Bool.or_eq_true, decide_eq_true_eq] at hcond'
    simp only [isErrorB]
    exact iff_of_true trivial hcond'
  case isFalse hcond =>
    simp only [isErrorB]
    apply iff_of_false
    · exact fun h => Bool.noConfusion h
    · intro hor
      apply hcond
      simp only [Bool.or_eq_true, decide_eq_true_eq]
      exact hor

/-- C10 (amended): configuration memoization and atomicity.  A failing
`loadConfig` — which happens exactly when the workspace-first
resolution yields no domain or no API key — leaves the cache unset;
once a call succeeds with configuration `c`, the state caches `c` and
every later `loadConfig` or `getConfig` returns `c` without reading
the world, until `reset`. -/
theorem config_memoization_atomicity (w : World) :
    (∀ e st', loadConfig ⟨none⟩ w = (.error e, st') → st' = ⟨none⟩) ∧
    (isErrorB (loadConfig ⟨none⟩ w).1 = true ↔
      (truthy (jsOr (wsVal w ("BACKLOG_DOMAIN").toList) w.env.domain) = false ∨
       truthy (jsOr (wsVal w ("BACKLOG_API_KEY").toList) w.env.apiKey) = false)) ∧
    (∀ c st', loadConfig ⟨none⟩ w = (.ok c, st') →
      st' = ⟨some c⟩ ∧
      ∀ w', loadConfig ⟨some c⟩ w' = (.ok c, ⟨some c⟩) ∧
        getConfig ⟨some c⟩ w' = (.ok c, ⟨some c⟩)) ∧
    getConfig ⟨none⟩ w = loadConfig ⟨none⟩ w ∧
    (∀ st : ManagerState, resetManager st = ⟨none⟩) := by
  refine ⟨?_, ?_, ?_, rfl, fun _ => rfl⟩
  · intro e st' h
    simp only [loadConfig] at h
    cases hr : resolveConfig w with
    | error e2 =>
      rw [hr] at h
      simp only [Prod.mk.injEq] at h
      exact h.2.symm
    | ok c =>
      rw [hr] at h
      simp only [Prod.mk.injEq] at h
      exact Except.noConfusion h.1
  · rw [show (loadConfig ⟨none⟩ w).1 = resolveConfig w from ?_]
    · exact resolveConfig_error_iff w
    · simp only [loadConfig]
      cases hr : resolveConfig w with
      | error e2 => rfl
      | ok c => rfl
  · intro c st' h
    simp only [loadConfig] at h
    cases hr : resolveConfig w with
    | error e2 =>
      rw [hr] at h
      simp only [Prod.mk.injEq] at h
      exact Except.noConfusion h.1
    | ok c2 =>
      rw [hr] at h
      simp only [Prod.mk.injEq, Except.ok.injEq] at h
      obtain ⟨rfl, rfl⟩ := h
      exact ⟨rfl, fun w' => ⟨rfl, rfl⟩⟩

/-- C10 witness: after a successful load, a later call in a different
(empty) world still returns the cached configuration. -/
theorem config_memoization_atomicity_witness :
    loadConfig ⟨none⟩ okWorld = (.ok okCfg, ⟨some okCfg⟩) ∧
    loadConfig ⟨some okCfg⟩ emptyWorld = (.ok okCfg, ⟨some okCfg⟩) :=
  ⟨rfl,
   (((config_memoization_atomicity okWorld).2.2.1 okCfg ⟨some okCfg⟩ rfl).2
     emptyWorld).1⟩

/-- C6 witness: the amended equivalence at a concrete file content. -/
theorem workspace_parse_amended_witness :
    parseWorkspaceConfig ("# top\nKEY=v1=v2\n\n QUOTED = \x27q\x27 ").toList =
      specParseWorkspaceAmended ("# top\nKEY=v1=v2\n\n QUOTED = \x27q\x27 ").toList ∧
    parseWorkspaceConfig ("# top\nKEY=v1=v2\n\n QUOTED = \x27q\x27 ").toList =
      [(("KEY").toList, ("v1=v2").toList), (("QUOTED").toList, ("q").toList)] :=
  ⟨workspace_parse_amended (("# top\nKEY=v1=v2\n\n QUOTED = \x27q\x27 ").toList),
   by decide⟩
